import Mathlib

/-
Verification of the jstore serialization / path-resolution / durable-store
engine against its specification.

The development shallowly embeds the C++ sources:
  - nlohmann::json values are modelled by the inductive `J` (objects are
    key-sorted association lists, as in nlohmann's std::map-backed objects);
  - the generic visit_struct-driven serializer loops over an explicit list of
    `Field` descriptors (name, per-field serializer, default test, per-field
    deserializer, default restorer), exactly the data the C++ generic lambda
    consumes per member;
  - container codecs, split_path / visit_path, tree::save and the D-Bus Set
    handler are translated function by function.
-/

namespace JStore

/- ===== Sorted association lists (std::map / nlohmann object backing) ===== -/

/-- Lookup of the first entry with the given key (std::map::find). -/
def lookupL {κ α : Type} [LinearOrder κ] : List (κ × α) → κ → Option α
  | [], _ => none
  | p :: t, k => if p.1 = k then some p.2 else lookupL t k

/-- Ordered insert-or-assign, mirroring `m[k] = v` on a key-sorted map. -/
def setL {κ α : Type} [LinearOrder κ] (k : κ) (v : α) : List (κ × α) → List (κ × α)
  | [] => [(k, v)]
  | p :: t =>
    if k < p.1 then (k, v) :: p :: t
    else if k = p.1 then (k, v) :: t
    else p :: setL k v t

/-- Ordered insert-if-absent, mirroring `m.try_emplace(k, v)` / `m.emplace(k, v)`. -/
def emplaceL {κ α : Type} [LinearOrder κ] (k : κ) (v : α) : List (κ × α) → List (κ × α)
  | [] => [(k, v)]
  | p :: t =>
    if k < p.1 then (k, v) :: p :: t
    else if k = p.1 then p :: t
    else p :: emplaceL k v t

/-- Erase of the entry with the given key, mirroring `m.erase(m.find(k))`. -/
def eraseL {κ α : Type} [LinearOrder κ] (k : κ) : List (κ × α) → List (κ × α)
  | [] => []
  | p :: t => if p.1 = k then t else p :: eraseL k t

/-- Invariant of std::map iteration: keys strictly ascending. -/
abbrev KeysSorted {κ α : Type} [LinearOrder κ] (l : List (κ × α)) : Prop :=
  List.Pairwise (fun p q => p.1 < q.1) l

/- ===== Structured-document values (nlohmann::json) ===== -/

/--
Key text (std::string keys), modelled as character lists so that the
byte-wise std::string ordering used by std::map is computable.
-/
abbrev Str := List Char

/-- Shallow model of a JSON value; objects carry key-sorted entry lists. -/
inductive J where
  | null : J
  | bool : Bool → J
  | num : Int → J
  | str : String → J
  | arr : List J → J
  | obj : List (Str × J) → J

/-- Structural equality of documents (nlohmann json::operator==). -/
def J.beq : J → J → Bool
  | .null, .null => true
  | .bool a, .bool b => a == b
  | .num a, .num b => a == b
  | .str a, .str b => a == b
  | .arr [], .arr [] => true
  | .arr (x :: xs), .arr (y :: ys) => J.beq x y && J.beq (.arr xs) (.arr ys)
  | .obj [], .obj [] => true
  | .obj ((k, v) :: t), .obj ((k2, v2) :: t2) =>
    k == k2 && J.beq v v2 && J.beq (.obj t) (.obj t2)
  | _, _ => false

/-- Model of json::is_object(). -/
def J.isObj : J → Bool
  | .obj _ => true
  | _ => false

/-- Model of json::empty(): true for null and for empty arrays/objects. -/
def J.isEmpty : J → Bool
  | .null => true
  | .arr xs => xs.isEmpty
  | .obj kvs => kvs.isEmpty
  | _ => false

/-- Model of j.find(k) / j.contains(k) / j.at(k) on object values. -/
def J.objFind : J → Str → Option J
  | .obj kvs, k => lookupL kvs k
  | _, _ => none

/-- Model of j[k] = v on an object value. -/
def J.objSet : J → Str → J → J
  | .obj kvs, k, v => .obj (setL k v kvs)
  | j, _, _ => j

/-- Model of j.erase(j.find(k)) on an object value. -/
def J.objErase : J → Str → J
  | .obj kvs, k => .obj (eraseL k kvs)
  | j, _ => j

/-- Top-level sortedness of an object value (nlohmann objects are std::maps). -/
def TopSorted : J → Prop
  | .obj kvs => KeysSorted kvs
  | _ => True

/- ===== Codec: serialization.hpp ===== -/

/--
Descriptor of one visitable-struct member, the data the generic
visit_struct::for_each lambdas in serialization.hpp consume per field:
its JSON key, the member serializer `serialize(v, value, omit_defaults)`
(success flag and produced value), the default-diff test `value == def`,
the member deserializer `deserialize(j.at(key), value)` applied to the
struct, and the default restorer `value = def`.
-/
structure Field (ρ : Type) where
  name : Str
  serB : ρ → Bool → Bool × J
  isDefault : ρ → Bool
  deser : J → ρ → ρ
  reset : ρ → ρ

/-- Start of serialize for a visitable struct: keep j only if it is an object. -/
def startObj (j : J) : J := if j.isObj then j else J.obj []

/--
Per-field body of serialize for a visitable struct: when omit_defaults is
unset or the value differs from the default, serialize the member; if that
produced content, set the key, otherwise erase any existing element.
-/
def serStep {ρ : Type} (r : ρ) (om : Bool) (acc : J) (f : Field ρ) : J :=
  if !om || !(f.isDefault r) then
    let p := f.serB r om
    if p.1 then acc.objSet f.name p.2 else acc.objErase f.name
  else acc.objErase f.name

/-- Pack a visitable struct (resulting document value). -/
def serializeVisitable {ρ : Type} (fields : List (Field ρ)) (j : J) (r : ρ) (om : Bool) : J :=
  fields.foldl (serStep r om) (startObj j)

/-- Pack a visitable struct: result value and the `!j.empty()` return flag. -/
def serializeVisitableB {ρ : Type} (fields : List (Field ρ)) (j : J) (r : ρ) (om : Bool) :
    Bool × J :=
  let out := serializeVisitable fields j r om
  (!out.isEmpty, out)

/-- Condition under which serialize writes the key of one field. -/
def fieldWritten {ρ : Type} (f : Field ρ) (r : ρ) (om : Bool) : Bool :=
  (!om || !(f.isDefault r)) && (f.serB r om).1

/--
Per-field body of deserialize for a visitable struct: decode members whose
key is present, restore the default for absent members that differ from it.
-/
def deserStep {ρ : Type} (j : J) (acc : ρ) (f : Field ρ) : ρ :=
  match j.objFind f.name with
  | some v => f.deser v acc
  | none => if !(f.isDefault acc) then f.reset acc else acc

/-- Unpack a visitable struct. -/
def deserializeVisitable {ρ : Type} (fields : List (Field ρ)) (j : J) (r : ρ) : Bool × ρ :=
  if !j.isObj then (false, r)
  else (true, fields.foldl (deserStep j) r)

/-- Pack an array-like type from an element serializer. -/
def serializeArrB {α : Type} (enc : α → Bool → Bool × J) (om : Bool) (xs : List α) :
    Bool × J :=
  let js := xs.map (fun x => (enc x om).2)
  (!js.isEmpty, J.arr js)

/-- Unpack an array-like type: clear, then append one decoded element per entry. -/
def deserializeArrB {α : Type} (dec : J → α → Bool × α) (d : α) (j : J) (cont : List α) :
    Bool × List α :=
  match j with
  | .arr vs => (true, vs.map (fun v => (dec v d).2))
  | _ => (false, cont)

/-- Pack a map-like type with string keys into an object. -/
def serializeMapB {α : Type} (enc : α → Bool → Bool × J) (om : Bool)
    (m : List (Str × α)) : Bool × J :=
  let j := m.foldl (fun acc kv => acc.objSet kv.1 (enc kv.2 om).2) (J.obj [])
  (!j.isEmpty, j)

/-- Unpack a map-like type with string keys: clear, then emplace per object key. -/
def deserializeMapB {α : Type} (dec : J → α → Bool × α) (d : α) (j : J)
    (cont : List (Str × α)) : Bool × List (Str × α) :=
  match j with
  | .obj kvs => (true, kvs.foldl (fun c kv => emplaceL kv.1 (dec kv.2 d).2 c) [])
  | _ => (false, cont)

/-- Per-entry output of packing a map-like type with non-string keys. -/
def fmapEncItems {κ α : Type} (encK : κ → Bool × J) (enc : α → Bool → Bool × J)
    (om : Bool) : List (κ × α) → List J
  | [] => []
  | kv :: t =>
    (let pk := encK kv.1
     if pk.1 then [J.arr [pk.2, (enc kv.2 om).2]] else []) ++ fmapEncItems encK enc om t

/-- Pack a map-like type with non-string keys into an array of [key, value] pairs. -/
def serializeFMapB {κ α : Type} (encK : κ → Bool × J) (enc : α → Bool → Bool × J)
    (om : Bool) (m : List (κ × α)) : Bool × J :=
  let js := fmapEncItems encK enc om m
  (!js.isEmpty, J.arr js)

/-- Loop body of unpacking a map-like type with non-string keys. -/
def fmapDecStep {κ α : Type} [LinearOrder κ] (decK : J → κ → Bool × κ) (dK : κ)
    (dec : J → α → Bool × α) (d : α) (c : List (κ × α)) (v : J) : List (κ × α) :=
  match v with
  | .arr [kj, vj] =>
    let pk := decK kj dK
    if pk.1 then emplaceL pk.2 (dec vj d).2 c else c
  | _ => c

/-- Unpack a map-like type with non-string keys, skipping malformed entries. -/
def deserializeFMapB {κ α : Type} [LinearOrder κ] (decK : J → κ → Bool × κ) (dK : κ)
    (dec : J → α → Bool × α) (d : α) (j : J) (cont : List (κ × α)) :
    Bool × List (κ × α) :=
  match j with
  | .arr vs => (true, vs.foldl (fmapDecStep decK dK dec d) [])
  | _ => (false, cont)

/- ===== Leaf codecs for the concrete primitive types used below ===== -/

/-- Leaf serializer for booleans (to_json is total). -/
def encBoolE (b : Bool) (_ : Bool) : Bool × J := (true, J.bool b)

/-- Leaf serializer for integers (to_json is total). -/
def encIntE (n : Int) (_ : Bool) : Bool × J := (true, J.num n)

/-- Leaf serializer for strings (to_json is total). -/
def encStrE (s : String) (_ : Bool) : Bool × J := (true, J.str s)

/-- Leaf deserializer for booleans: get_to succeeds only on a boolean value. -/
def decBoolJ (j : J) (v : Bool) : Bool × Bool :=
  match j with
  | .bool b => (true, b)
  | _ => (false, v)

/-- Leaf deserializer for integers: get_to succeeds only on a numeric value. -/
def decIntJ (j : J) (v : Int) : Bool × Int :=
  match j with
  | .num n => (true, n)
  | _ => (false, v)

/-- Leaf deserializer for strings: get_to succeeds only on a string value. -/
def decStrJ (j : J) (v : String) : Bool × String :=
  match j with
  | .str s => (true, s)
  | _ => (false, v)

/- ===== A concrete visitable struct (as registered with VISITABLE_STRUCT) ===== -/

/--
Concrete Record instance mirroring the tests' visitable struct: a boolean, a
string, an integer, an array-like member and a string-keyed map member, with
the tests' default member values.
-/
structure Rec where
  b : Bool
  s : String
  i : Int
  a : List Int
  m : List (Str × Int)
  deriving DecidableEq, Repr

/-- Default-constructed instance of the Record (the Default Set). -/
def recDefault : Rec :=
  { b := true, s := "string", i := 99, a := [1, 2, 3],
    m := [("x".toList, 11), ("y".toList, 22)] }

/-- Field descriptor of member b. -/
def fieldB : Field Rec :=
  { name := "b".toList
    serB := fun r om => encBoolE r.b om
    isDefault := fun r => r.b == recDefault.b
    deser := fun j r => { r with b := (decBoolJ j r.b).2 }
    reset := fun r => { r with b := recDefault.b } }

/-- Field descriptor of member s. -/
def fieldS : Field Rec :=
  { name := "s".toList
    serB := fun r om => encStrE r.s om
    isDefault := fun r => r.s == recDefault.s
    deser := fun j r => { r with s := (decStrJ j r.s).2 }
    reset := fun r => { r with s := recDefault.s } }

/-- Field descriptor of member i. -/
def fieldI : Field Rec :=
  { name := "i".toList
    serB := fun r om => encIntE r.i om
    isDefault := fun r => r.i == recDefault.i
    deser := fun j r => { r with i := (decIntJ j r.i).2 }
    reset := fun r => { r with i := recDefault.i } }

/-- Field descriptor of member a. -/
def fieldA : Field Rec :=
  { name := "a".toList
    serB := fun r om => serializeArrB encIntE om r.a
    isDefault := fun r => r.a == recDefault.a
    deser := fun j r => { r with a := (deserializeArrB decIntJ 0 j r.a).2 }
    reset := fun r => { r with a := recDefault.a } }

/-- Field descriptor of member m. -/
def fieldM : Field Rec :=
  { name := "m".toList
    serB := fun r om => serializeMapB encIntE om r.m
    isDefault := fun r => r.m == recDefault.m
    deser := fun j r => { r with m := (deserializeMapB decIntJ 0 j r.m).2 }
    reset := fun r => { r with m := recDefault.m } }

/-- Field descriptors of the Record, in declaration order. -/
def recFields : List (Field Rec) := [fieldB, fieldS, fieldI, fieldA, fieldM]

/- ===== Path resolution: visit_path.hpp ===== -/

/-- Split the first slash-delimited segment from the remainder of the path. -/
def splitPath (path : List Char) : List Char × List Char :=
  match path.findIdx? (· = '/') with
  | none => (path, [])
  | some i => (path.take i, if i + 1 < path.length then path.drop (i + 1) else [])

/-- Parse of a base-10 unsigned array index (std::from_chars, all chars used). -/
def parseIndex (seg : List Char) : Option Nat :=
  if seg.isEmpty then none
  else if seg.all Char.isDigit then
    some (seg.foldl (fun n c => n * 10 + (c.toNat - 48)) 0)
  else none

/-- Visit-path terminal for non-container nodes with a read-only visitor. -/
def leafVisitP (path : List Char) : Bool := path.isEmpty

/-- Visit-path for the array-like member with a read-only visitor. -/
def listVisitP (xs : List Int) (path : List Char) : Bool :=
  if path.isEmpty then true
  else
    let sp := splitPath path
    match parseIndex sp.1 with
    | none => false
    | some i => if i < xs.length then leafVisitP sp.2 else false

/-- Visit-path for the string-keyed map member with a read-only visitor. -/
def mapVisitP (m : List (Str × Int)) (path : List Char) (insert : Bool) :
    Bool × List (Str × Int) :=
  if path.isEmpty then (true, m)
  else
    let sp := splitPath path
    if sp.1.isEmpty then (false, m)
    else
      let k : Str := sp.1
      if insert then
        let m2 := emplaceL k 0 m
        (leafVisitP sp.2, m2)
      else
        match lookupL m k with
        | none => (false, m)
        | some _ => (leafVisitP sp.2, m)

/--
Visit-path for the Record with a read-only visitor: dispatch the first
segment over the field names in declaration order, returning whether a node
was found and the (possibly key-inserted) tree.
-/
def recVisitPath (r : Rec) (path : List Char) (insert : Bool) : Bool × Rec :=
  if path.isEmpty then (true, r)
  else
    let sp := splitPath path
    let seg := sp.1
    if seg = "b".toList then (leafVisitP sp.2, r)
    else if seg = "s".toList then (leafVisitP sp.2, r)
    else if seg = "i".toList then (leafVisitP sp.2, r)
    else if seg = "a".toList then (listVisitP r.a sp.2, r)
    else if seg = "m".toList then
      let p := mapVisitP r.m sp.2 insert
      (p.1, { r with m := p.2 })
    else (false, r)

/- ===== Remote-bridge Set: visit_path with the Set visitor (jstore.hpp) ===== -/

/--
Outcome of running visit_path with the D-Bus Set visitor over a node of type
α: the visitor decoded successfully, or the path missed (visit_path returned
false), or json::parse threw EINVAL inside the visitor, or deserialize
failed and EINVAL was thrown. Each outcome carries the resulting node state,
since insertions and partial decodes survive a thrown error.
-/
inductive SOut (α : Type) where
  | ok : α → SOut α
  | notFound : α → SOut α
  | parseError : α → SOut α
  | decodeError : α → SOut α
  deriving DecidableEq, Repr

/-- Rebuild an enclosing container around a child's Set outcome. -/
def mapSOut {α β : Type} (f : α → β) : SOut α → SOut β
  | .ok v => .ok (f v)
  | .notFound v => .notFound (f v)
  | .parseError v => .parseError (f v)
  | .decodeError v => .decodeError (f v)

/--
Set visitor at a resolved node: parse the payload text (its parse result is
the Option argument; parsing happens only here, inside the visitor), then
deserialize into the node, throwing EINVAL on either failure.
-/
def setVisitNode {α : Type} (dec : J → α → Bool × α) (pv : Option J) (v : α) : SOut α :=
  match pv with
  | none => SOut.parseError v
  | some jd =>
    let p := dec jd v
    if p.1 then SOut.ok p.2 else SOut.decodeError p.2

/-- Set traversal for a non-container node. -/
def setVisitLeaf {α : Type} (dec : J → α → Bool × α) (pv : Option J) (v : α)
    (path : List Char) : SOut α :=
  if path.isEmpty then setVisitNode dec pv v
  else SOut.notFound v

/-- Set traversal for the array-like member. -/
def setVisitList (pv : Option J) (xs : List Int) (path : List Char) : SOut (List Int) :=
  if path.isEmpty then setVisitNode (deserializeArrB decIntJ 0) pv xs
  else
    let sp := splitPath path
    match parseIndex sp.1 with
    | none => SOut.notFound xs
    | some i =>
      match xs.get? i with
      | none => SOut.notFound xs
      | some e => mapSOut (fun e2 => xs.set i e2) (setVisitLeaf decIntJ pv e sp.2)

/-- Set traversal for the string-keyed map member, inserting missing keys. -/
def setVisitMap (pv : Option J) (insert : Bool) (m : List (Str × Int))
    (path : List Char) : SOut (List (Str × Int)) :=
  if path.isEmpty then setVisitNode (deserializeMapB decIntJ 0) pv m
  else
    let sp := splitPath path
    if sp.1.isEmpty then SOut.notFound m
    else
      let k : Str := sp.1
      let m2 := if insert then emplaceL k 0 m else m
      match lookupL m2 k with
      | none => SOut.notFound m2
      | some e => mapSOut (fun e2 => setL k e2 m2) (setVisitLeaf decIntJ pv e sp.2)

/-- Deserializer of the whole Record. -/
def decRecB (j : J) (r : Rec) : Bool × Rec := deserializeVisitable recFields j r

/-- Set traversal from the Record root. -/
def setVisitRec (pv : Option J) (insert : Bool) (r : Rec) (path : List Char) : SOut Rec :=
  if path.isEmpty then setVisitNode decRecB pv r
  else
    let sp := splitPath path
    let seg := sp.1
    if seg = "b".toList then
      mapSOut (fun v => { r with b := v }) (setVisitLeaf decBoolJ pv r.b sp.2)
    else if seg = "s".toList then
      mapSOut (fun v => { r with s := v }) (setVisitLeaf decStrJ pv r.s sp.2)
    else if seg = "i".toList then
      mapSOut (fun v => { r with i := v }) (setVisitLeaf decIntJ pv r.i sp.2)
    else if seg = "a".toList then
      mapSOut (fun v => { r with a := v }) (setVisitList pv r.a sp.2)
    else if seg = "m".toList then
      mapSOut (fun v => { r with m := v }) (setVisitMap pv insert r.m sp.2)
    else SOut.notFound r

/- ===== Durable store: tree::save (jstore.hpp) ===== -/

/--
Model of tree::save over a generic visitable root: read the prior on-disk
document (absent or corrupt yields the default json value, null); serialize
the root on top of it with omit_defaults; when nothing was serialized remove
the file; when the merged result equals the prior document skip the write;
otherwise write the merged document. Returns the resulting on-disk state and
whether a filesystem write (temp file + rename) was performed.
-/
def saveG {ρ : Type} (fields : List (Field ρ)) (disk : Option J) (r : ρ) :
    Option J × Bool :=
  let old := match disk with
    | some d => d
    | none => J.null
  let p := serializeVisitableB fields old r true
  if !p.1 then (none, false)
  else if J.beq p.2 old then (disk, false)
  else (some p.2, true)

/- ===== Remote-bridge Set handler (register_dbus in jstore.hpp) ===== -/

/-- Reply of the D-Bus Set method: success, ENOENT, or EINVAL. -/
inductive DReply where
  | ok : DReply
  | errNotFound : DReply
  | errInvalid : DReply
  deriving DecidableEq, Repr

/-- State owned by a tree: the on-disk document (if any) and the root. -/
structure TreeState where
  disk : Option J
  root : Rec

/--
Full Set handler: run visit_path with insert_keys over the root with the Set
visitor; a false result reports ENOENT, a thrown parse/decode error reports
EINVAL (insertions made during resolution survive); on success the handler
itself calls save() before replying.
-/
def dbusSet (st : TreeState) (path : List Char) (pv : Option J) : TreeState × DReply :=
  match setVisitRec pv true st.root path with
  | SOut.ok r2 => ({ disk := (saveG recFields st.disk r2).1, root := r2 }, DReply.ok)
  | SOut.notFound r2 => ({ st with root := r2 }, DReply.errNotFound)
  | SOut.parseError r2 => ({ st with root := r2 }, DReply.errInvalid)
  | SOut.decodeError r2 => ({ st with root := r2 }, DReply.errInvalid)

/-- Top-level sortedness of an optional on-disk document. -/
def OptTopSorted : Option J → Prop
  | some d => TopSorted d
  | none => True

/- ===== Lemmas: sorted association lists ===== -/

theorem lookupL_cons {κ α : Type} [LinearOrder κ] (p : κ × α) (t : List (κ × α)) (k : κ) :
    lookupL (p :: t) k = if p.1 = k then some p.2 else lookupL t k := rfl

theorem setL_cons {κ α : Type} [LinearOrder κ] (k : κ) (v : α) (p : κ × α)
    (t : List (κ × α)) :
    setL k v (p :: t) =
      if k < p.1 then (k, v) :: p :: t
      else if k = p.1 then (k, v) :: t
      else p :: setL k v t := rfl

theorem emplaceL_cons {κ α : Type} [LinearOrder κ] (k : κ) (v : α) (p : κ × α)
    (t : List (κ × α)) :
    emplaceL k v (p :: t) =
      if k < p.1 then (k, v) :: p :: t
      else if k = p.1 then p :: t
      else p :: emplaceL k v t := rfl

theorem eraseL_cons {κ α : Type} [LinearOrder κ] (k : κ) (p : κ × α) (t : List (κ × α)) :
    eraseL k (p :: t) = if p.1 = k then t else p :: eraseL k t := rfl

theorem lookupL_setL_self {κ α : Type} [LinearOrder κ] (k : κ) (v : α) :
    ∀ l : List (κ × α), lookupL (setL k v l) k = some v := by
  intro l
  induction l with
  | nil => simp [setL, lookupL]
  | cons p t ih =>
    rw [setL_cons]
    rcases lt_trichotomy k p.1 with h1 | h1 | h1
    · rw [if_pos h1, lookupL_cons, if_pos rfl]
    · rw [if_neg (by rw [h1]; exact lt_irrefl p.1), if_pos h1, lookupL_cons,
        if_pos rfl]
    · rw [if_neg (not_lt_of_gt h1), if_neg (ne_of_gt h1), lookupL_cons,
        if_neg (Ne.symm (ne_of_gt h1)), ih]

theorem lookupL_setL_ne {κ α : Type} [LinearOrder κ] (k k2 : κ) (v : α)
    (hne : k2 ≠ k) : ∀ l : List (κ × α), lookupL (setL k v l) k2 = lookupL l k2 := by
  intro l
  induction l with
  | nil =>
    have h4 : ¬ (k = k2) := fun h => hne h.symm
    simp [setL, lookupL, h4]
  | cons p t ih =>
    rw [setL_cons]
    rcases lt_trichotomy k p.1 with h1 | h1 | h1
    · rw [if_pos h1, lookupL_cons, if_neg (fun h : k = k2 => hne h.symm)]
    · rw [if_neg (by rw [h1]; exact lt_irrefl p.1), if_pos h1,
        lookupL_cons, lookupL_cons]
      have h4 : ¬ (k = k2) := fun h => hne h.symm
      have h5 : ¬ (p.1 = k2) := fun h => h4 (h1.trans h)
      rw [if_neg h4, if_neg h5]
    · rw [if_neg (not_lt_of_gt h1), if_neg (ne_of_gt h1), lookupL_cons,
        lookupL_cons]
      by_cases h3 : p.1 = k2
      · rw [if_pos h3, if_pos h3]
      · rw [if_neg h3, if_neg h3, ih]

theorem lookupL_eraseL_ne {κ α : Type} [LinearOrder κ] (k k2 : κ)
    (hne : k2 ≠ k) : ∀ l : List (κ × α), lookupL (eraseL k l) k2 = lookupL l k2 := by
  intro l
  induction l with
  | nil => simp [eraseL]
  | cons p t ih =>
    rw [eraseL_cons]
    by_cases h1 : p.1 = k
    · rw [if_pos h1, lookupL_cons, if_neg (by rw [h1]; exact fun h => hne h.symm)]
    · rw [if_neg h1, lookupL_cons, lookupL_cons]
      by_cases h3 : p.1 = k2
      · rw [if_pos h3, if_pos h3]
      · rw [if_neg h3, if_neg h3, ih]

theorem mem_setL {κ α : Type} [LinearOrder κ] (k : κ) (v : α) :
    ∀ l : List (κ × α), ∀ q ∈ setL k v l, q = (k, v) ∨ q ∈ l := by
  intro l
  induction l with
  | nil =>
    intro q hq
    simp only [setL, List.mem_singleton] at hq
    exact Or.inl hq
  | cons p t ih =>
    intro q hq
    rw [setL_cons] at hq
    rcases lt_trichotomy k p.1 with h1 | h1 | h1
    · rw [if_pos h1] at hq
      rcases List.mem_cons.mp hq with h | h
      · exact Or.inl h
      · exact Or.inr h
    · rw [if_neg (by rw [h1]; exact lt_irrefl p.1), if_pos h1] at hq
      rcases List.mem_cons.mp hq with h | h
      · exact Or.inl h
      · exact Or.inr (List.mem_cons_of_mem p h)
    · rw [if_neg (not_lt_of_gt h1), if_neg (ne_of_gt h1)] at hq
      rcases List.mem_cons.mp hq with h | h
      · exact Or.inr (by rw [h]; exact List.mem_cons_self p t)
      · rcases ih q h with h3 | h3
        · exact Or.inl h3
        · exact Or.inr (List.mem_cons_of_mem p h3)

theorem keysSorted_setL {κ α : Type} [LinearOrder κ] (k : κ) (v : α) :
    ∀ l : List (κ × α), KeysSorted l → KeysSorted (setL k v l) := by
  intro l
  induction l with
  | nil => intro _; simp [setL]
  | cons p t ih =>
    intro hs
    obtain ⟨hlt, ht⟩ := List.pairwise_cons.mp hs
    rw [setL_cons]
    rcases lt_trichotomy k p.1 with h1 | h1 | h1
    · rw [if_pos h1]
      refine List.pairwise_cons.mpr ?_
      constructor
      · intro q hq
        rcases List.mem_cons.mp hq with h | h
        · rw [h]; exact h1
        · exact lt_trans h1 (hlt q h)
      · exact List.pairwise_cons.mpr ⟨hlt, ht⟩
    · rw [if_neg (by rw [h1]; exact lt_irrefl p.1), if_pos h1]
      refine List.pairwise_cons.mpr ?_
      exact ⟨fun q hq => by rw [h1]; exact hlt q hq, ht⟩
    · rw [if_neg (not_lt_of_gt h1), if_neg (ne_of_gt h1)]
      refine List.pairwise_cons.mpr ?_
      constructor
      · intro q hq
        rcases mem_setL k v t q hq with h | h
        · rw [h]; exact h1
        · exact hlt q h
      · exact ih ht

theorem eraseL_sublist {κ α : Type} [LinearOrder κ] (k : κ) :
    ∀ l : List (κ × α), List.Sublist (eraseL k l) l := by
  intro l
  induction l with
  | nil => simp [eraseL]
  | cons p t ih =>
    rw [eraseL_cons]
    by_cases h1 : p.1 = k
    · rw [if_pos h1]
      exact List.sublist_cons_self p t
    · rw [if_neg h1]
      exact List.Sublist.cons₂ p ih

theorem keysSorted_eraseL {κ α : Type} [LinearOrder κ] (k : κ)
    (l : List (κ × α)) (hs : KeysSorted l) : KeysSorted (eraseL k l) :=
  List.Pairwise.sublist (eraseL_sublist k l) hs

theorem lookupL_none_of_forall_ne {κ α : Type} [LinearOrder κ] (k : κ) :
    ∀ l : List (κ × α), (∀ q ∈ l, q.1 ≠ k) → lookupL l k = none := by
  intro l
  induction l with
  | nil => intro _; rfl
  | cons p t ih =>
    intro h
    rw [lookupL_cons, if_neg (h p (List.mem_cons_self p t))]
    exact ih (fun q hq => h q (List.mem_cons_of_mem p hq))

theorem lookupL_eraseL_self {κ α : Type} [LinearOrder κ] (k : κ) :
    ∀ l : List (κ × α), KeysSorted l → lookupL (eraseL k l) k = none := by
  intro l
  induction l with
  | nil => intro _; rfl
  | cons p t ih =>
    intro hs
    obtain ⟨hlt, ht⟩ := List.pairwise_cons.mp hs
    rw [eraseL_cons]
    by_cases h1 : p.1 = k
    · rw [if_pos h1]
      exact lookupL_none_of_forall_ne k t
        (fun q hq => by rw [← h1]; exact (ne_of_gt (hlt q hq)))
    · rw [if_neg h1, lookupL_cons, if_neg h1]
      exact ih ht

theorem mem_emplaceL {κ α : Type} [LinearOrder κ] (k : κ) (v : α) :
    ∀ l : List (κ × α), ∀ q ∈ emplaceL k v l, q = (k, v) ∨ q ∈ l := by
  intro l
  induction l with
  | nil =>
    intro q hq
    simp only [emplaceL, List.mem_singleton] at hq
    exact Or.inl hq
  | cons p t ih =>
    intro q hq
    rw [emplaceL_cons] at hq
    rcases lt_trichotomy k p.1 with h1 | h1 | h1
    · rw [if_pos h1] at hq
      rcases List.mem_cons.mp hq with h | h
      · exact Or.inl h
      · exact Or.inr h
    · rw [if_neg (by rw [h1]; exact lt_irrefl p.1), if_pos h1] at hq
      exact Or.inr hq
    · rw [if_neg (not_lt_of_gt h1), if_neg (ne_of_gt h1)] at hq
      rcases List.mem_cons.mp hq with h | h
      · exact Or.inr (by rw [h]; exact List.mem_cons_self p t)
      · rcases ih q h with h3 | h3
        · exact Or.inl h3
        · exact Or.inr (List.mem_cons_of_mem p h3)

theorem keysSorted_emplaceL {κ α : Type} [LinearOrder κ] (k : κ) (v : α) :
    ∀ l : List (κ × α), KeysSorted l → KeysSorted (emplaceL k v l) := by
  intro l
  induction l with
  | nil => intro _; simp [emplaceL]
  | cons p t ih =>
    intro hs
    obtain ⟨hlt, ht⟩ := List.pairwise_cons.mp hs
    rw [emplaceL_cons]
    rcases lt_trichotomy k p.1 with h1 | h1 | h1
    · rw [if_pos h1]
      refine List.pairwise_cons.mpr ?_
      constructor
      · intro q hq
        rcases List.mem_cons.mp hq with h | h
        · rw [h]; exact h1
        · exact lt_trans h1 (hlt q h)
      · exact List.pairwise_cons.mpr ⟨hlt, ht⟩
    · rw [if_neg (by rw [h1]; exact lt_irrefl p.1), if_pos h1]
      refine List.pairwise_cons.mpr ?_
      exact ⟨hlt, ht⟩
    · rw [if_neg (not_lt_of_gt h1), if_neg (ne_of_gt h1)]
      refine List.pairwise_cons.mpr ?_
      constructor
      · intro q hq
        rcases mem_emplaceL k v t q hq with h | h
        · rw [h]; exact h1
        · exact hlt q h
      · exact ih ht

theorem lookupL_emplaceL_absent {κ α : Type} [LinearOrder κ] (k : κ) (v : α) :
    ∀ l : List (κ × α), lookupL l k = none → lookupL (emplaceL k v l) k = some v := by
  intro l
  induction l with
  | nil => intro _; simp [emplaceL, lookupL]
  | cons p t ih =>
    intro habs
    rw [lookupL_cons] at habs
    by_cases h0 : p.1 = k
    · rw [if_pos h0] at habs
      exact absurd habs (by simp)
    · rw [if_neg h0] at habs
      rw [emplaceL_cons]
      rcases lt_trichotomy k p.1 with h1 | h1 | h1
      · rw [if_pos h1, lookupL_cons, if_pos rfl]
      · exact absurd h1.symm h0
      · rw [if_neg (not_lt_of_gt h1), if_neg (ne_of_gt h1), lookupL_cons,
          if_neg h0, ih habs]

theorem lookupL_emplaceL_ne {κ α : Type} [LinearOrder κ] (k k2 : κ) (v : α)
    (hne : k2 ≠ k) : ∀ l : List (κ × α), lookupL (emplaceL k v l) k2 = lookupL l k2 := by
  intro l
  induction l with
  | nil =>
    have h4 : ¬ (k = k2) := fun h => hne h.symm
    simp [emplaceL, lookupL, h4]
  | cons p t ih =>
    rw [emplaceL_cons]
    rcases lt_trichotomy k p.1 with h1 | h1 | h1
    · rw [if_pos h1, lookupL_cons, if_neg (fun h : k = k2 => hne h.symm)]
    · rw [if_neg (by rw [h1]; exact lt_irrefl p.1), if_pos h1]
    · rw [if_neg (not_lt_of_gt h1), if_neg (ne_of_gt h1), lookupL_cons,
        lookupL_cons]
      by_cases h3 : p.1 = k2
      · rw [if_pos h3, if_pos h3]
      · rw [if_neg h3, if_neg h3, ih]

theorem lookupL_ext {κ α : Type} [LinearOrder κ] :
    ∀ l1 l2 : List (κ × α), KeysSorted l1 → KeysSorted l2 →
      (∀ k, lookupL l1 k = lookupL l2 k) → l1 = l2 := by
  intro l1
  induction l1 with
  | nil =>
    intro l2 _ hs2 h
    cases l2 with
    | nil => rfl
    | cons q u =>
      have h1 := h q.1
      rw [lookupL_cons, if_pos rfl] at h1
      exact absurd h1.symm (by simp [lookupL])
  | cons p t ih =>
    intro l2 hs1 hs2 h
    cases l2 with
    | nil =>
      have h1 := h p.1
      rw [lookupL_cons, if_pos rfl] at h1
      exact absurd h1 (by simp [lookupL])
    | cons q u =>
      obtain ⟨hlt1, ht1⟩ := List.pairwise_cons.mp hs1
      obtain ⟨hlt2, ht2⟩ := List.pairwise_cons.mp hs2
      have hkeys : p.1 = q.1 := by
        rcases lt_trichotomy p.1 q.1 with hcm | hcm | hcm
        · exfalso
          have h1 := h p.1
          rw [lookupL_cons, if_pos rfl] at h1
          have h2 : lookupL (q :: u) p.1 = none := by
            apply lookupL_none_of_forall_ne
            intro x hx
            rcases List.mem_cons.mp hx with hh | hh
            · rw [hh]; exact ne_of_gt hcm
            · exact ne_of_gt (lt_trans hcm (hlt2 x hh))
          rw [h2] at h1
          exact absurd h1 (by simp)
        · exact hcm
        · exfalso
          have h1 := h q.1
          have h2 : lookupL (p :: t) q.1 = none := by
            apply lookupL_none_of_forall_ne
            intro x hx
            rcases List.mem_cons.mp hx with hh | hh
            · rw [hh]; exact ne_of_gt hcm
            · exact ne_of_gt (lt_trans hcm (hlt1 x hh))
          rw [h2, lookupL_cons, if_pos rfl] at h1
          exact absurd h1.symm (by simp)
      have hvals : p.2 = q.2 := by
        have h1 := h p.1
        rw [lookupL_cons, if_pos rfl, lookupL_cons, if_pos hkeys.symm] at h1
        exact Option.some.inj h1
      have htails : t = u := by
        apply ih u ht1 ht2
        intro k
        by_cases hk : k = p.1
        · subst hk
          rw [lookupL_none_of_forall_ne p.1 t (fun x hx => (ne_of_gt (hlt1 x hx))),
            lookupL_none_of_forall_ne p.1 u
              (fun x hx => by rw [hkeys]; exact (ne_of_gt (hlt2 x hx)))]
        · have h1 := h k
          rw [lookupL_cons, if_neg (fun hh => hk hh.symm), lookupL_cons,
            if_neg (fun hh => hk (hh.symm.trans hkeys.symm))] at h1
          exact h1
      have hp : p = (p.1, p.2) := rfl
      have hq : q = (q.1, q.2) := rfl
      rw [hp, hq, hkeys, hvals, htails]

/- ===== Lemmas: document values ===== -/

theorem isObj_exists {j : J} (h : j.isObj = true) : ∃ kvs, j = J.obj kvs := by
  cases j with
  | obj kvs => exact ⟨kvs, rfl⟩
  | null => exact absurd h (by simp [J.isObj])
  | bool b => exact absurd h (by simp [J.isObj])
  | num n => exact absurd h (by simp [J.isObj])
  | str s => exact absurd h (by simp [J.isObj])
  | arr xs => exact absurd h (by simp [J.isObj])

theorem objFind_obj (kvs : List (Str × J)) (k : Str) :
    (J.obj kvs).objFind k = lookupL kvs k := rfl

theorem topSorted_obj (kvs : List (Str × J)) :
    TopSorted (J.obj kvs) ↔ KeysSorted kvs := Iff.rfl

theorem startObj_isObj (j : J) : (startObj j).isObj = true := by
  rw [startObj]
  by_cases h : j.isObj = true
  · rw [if_pos h]; exact h
  · rw [if_neg h]; rfl

theorem startObj_of_isObj {j : J} (h : j.isObj = true) : startObj j = j := by
  rw [startObj, if_pos h]

theorem topSorted_startObj {j : J} (h : TopSorted j) : TopSorted (startObj j) := by
  rw [startObj]
  by_cases h1 : j.isObj = true
  · rw [if_pos h1]; exact h
  · rw [if_neg h1]; exact List.Pairwise.nil

theorem isEmpty_false_of_objFind {j : J} {k : Str} {v : J}
    (h : j.objFind k = some v) : j.isEmpty = false := by
  cases j with
  | obj kvs =>
    cases kvs with
    | nil => exact absurd h (by simp [J.objFind, lookupL])
    | cons p t => rfl
  | null => exact absurd h (by simp [J.objFind])
  | bool b => exact absurd h (by simp [J.objFind])
  | num n => exact absurd h (by simp [J.objFind])
  | str s => exact absurd h (by simp [J.objFind])
  | arr xs => exact absurd h (by simp [J.objFind])

theorem objFind_ext {j1 j2 : J} (h1 : j1.isObj = true) (h2 : j2.isObj = true)
    (hs1 : TopSorted j1) (hs2 : TopSorted j2)
    (h : ∀ k, j1.objFind k = j2.objFind k) : j1 = j2 := by
  obtain ⟨kvs1, rfl⟩ := isObj_exists h1
  obtain ⟨kvs2, rfl⟩ := isObj_exists h2
  have h3 : ∀ k, lookupL kvs1 k = lookupL kvs2 k := by
    intro k
    rw [← objFind_obj, ← objFind_obj]
    exact h k
  have : kvs1 = kvs2 :=
    lookupL_ext kvs1 kvs2 ((topSorted_obj kvs1).mp hs1) ((topSorted_obj kvs2).mp hs2) h3
  rw [this]

theorem beq_refl : ∀ j : J, J.beq j j = true
  | .null => by simp [J.beq]
  | .bool b => by simp [J.beq]
  | .num n => by simp [J.beq]
  | .str s => by simp [J.beq]
  | .arr [] => by simp [J.beq]
  | .arr (x :: xs) => by
    simp [J.beq, beq_refl x, beq_refl (J.arr xs)]
  | .obj [] => by simp [J.beq]
  | .obj ((k, v) :: t) => by
    simp [J.beq, beq_refl v, beq_refl (J.obj t)]

theorem beq_null_of_isObj {j : J} (h : j.isObj = true) : J.beq j J.null = false := by
  obtain ⟨kvs, rfl⟩ := isObj_exists h
  cases kvs with
  | nil => simp [J.beq]
  | cons p t =>
    have hp : p = (p.1, p.2) := rfl
    rw [hp]
    simp [J.beq]

/- ===== Lemmas: the visitable-struct serializer fold ===== -/

theorem serStep_obj {ρ : Type} (r : ρ) (om : Bool) (kvs : List (Str × J))
    (f : Field ρ) :
    serStep r om (J.obj kvs) f =
      if fieldWritten f r om then J.obj (setL f.name (f.serB r om).2 kvs)
      else J.obj (eraseL f.name kvs) := by
  rw [serStep, fieldWritten]
  by_cases hc : (!om || !(f.isDefault r)) = true
  · rw [if_pos hc]
    by_cases hk : (f.serB r om).1 = true
    · simp [hk, hc, J.objSet]
    · simp only [Bool.not_eq_true] at hk
      simp [hk, hc, J.objErase]
  · simp only [Bool.not_eq_true] at hc
    simp [hc, J.objErase]

theorem serStep_isObj {ρ : Type} (r : ρ) (om : Bool) {acc : J} (f : Field ρ)
    (h : acc.isObj = true) : (serStep r om acc f).isObj = true := by
  obtain ⟨kvs, rfl⟩ := isObj_exists h
  rw [serStep_obj]
  by_cases hw : fieldWritten f r om = true
  · rw [if_pos hw]; rfl
  · rw [if_neg hw]; rfl

theorem serStep_topSorted {ρ : Type} (r : ρ) (om : Bool) {acc : J} (f : Field ρ)
    (h : acc.isObj = true) (hs : TopSorted acc) : TopSorted (serStep r om acc f) := by
  obtain ⟨kvs, rfl⟩ := isObj_exists h
  rw [serStep_obj]
  by_cases hw : fieldWritten f r om = true
  · rw [if_pos hw]
    exact (topSorted_obj _).mpr
      (keysSorted_setL f.name (f.serB r om).2 kvs ((topSorted_obj kvs).mp hs))
  · rw [if_neg hw]
    exact (topSorted_obj _).mpr
      (keysSorted_eraseL f.name kvs ((topSorted_obj kvs).mp hs))

theorem serFold_isObj {ρ : Type} (r : ρ) (om : Bool) :
    ∀ (fields : List (Field ρ)) (acc : J), acc.isObj = true →
      (List.foldl (serStep r om) acc fields).isObj = true := by
  intro fields
  induction fields with
  | nil => intro acc h; exact h
  | cons g rest ih =>
    intro acc h
    rw [List.foldl_cons]
    exact ih (serStep r om acc g) (serStep_isObj r om g h)

theorem serFold_topSorted {ρ : Type} (r : ρ) (om : Bool) :
    ∀ (fields : List (Field ρ)) (acc : J), acc.isObj = true → TopSorted acc →
      TopSorted (List.foldl (serStep r om) acc fields) := by
  intro fields
  induction fields with
  | nil => intro acc _ hs; exact hs
  | cons g rest ih =>
    intro acc h hs
    rw [List.foldl_cons]
    exact ih (serStep r om acc g) (serStep_isObj r om g h) (serStep_topSorted r om g h hs)

theorem objFind_serStep_ne {ρ : Type} (r : ρ) (om : Bool) {acc : J} (f : Field ρ)
    {k : Str} (h : acc.isObj = true) (hne : k ≠ f.name) :
    (serStep r om acc f).objFind k = acc.objFind k := by
  obtain ⟨kvs, rfl⟩ := isObj_exists h
  rw [serStep_obj]
  by_cases hw : fieldWritten f r om = true
  · rw [if_pos hw, objFind_obj, objFind_obj]
    exact lookupL_setL_ne f.name k (f.serB r om).2 hne kvs
  · rw [if_neg hw, objFind_obj, objFind_obj]
    exact lookupL_eraseL_ne f.name k hne kvs

theorem serFold_frame {ρ : Type} (r : ρ) (om : Bool) :
    ∀ (fields : List (Field ρ)) (acc : J) (k : Str), acc.isObj = true →
      k ∉ fields.map Field.name →
      (List.foldl (serStep r om) acc fields).objFind k = acc.objFind k := by
  intro fields
  induction fields with
  | nil => intro acc k _ _; rfl
  | cons g rest ih =>
    intro acc k h hk
    rw [List.map_cons, List.mem_cons] at hk
    push_neg at hk
    rw [List.foldl_cons, ih (serStep r om acc g) k (serStep_isObj r om g h) hk.2,
      objFind_serStep_ne r om g h hk.1]

theorem serFold_field {ρ : Type} (r : ρ) (om : Bool) :
    ∀ (fields : List (Field ρ)) (acc : J) (f : Field ρ),
      (fields.map Field.name).Nodup → f ∈ fields → acc.isObj = true → TopSorted acc →
      (List.foldl (serStep r om) acc fields).objFind f.name =
        if fieldWritten f r om then some (f.serB r om).2 else none := by
  intro fields
  induction fields with
  | nil => intro acc f _ hmem; exact absurd hmem (List.not_mem_nil f)
  | cons g rest ih =>
    intro acc f hN hmem h hs
    rw [List.map_cons, List.nodup_cons] at hN
    rw [List.foldl_cons]
    rcases List.mem_cons.mp hmem with hf | hf
    · subst hf
      rw [serFold_frame r om rest (serStep r om acc f) f.name
        (serStep_isObj r om f h) hN.1]
      obtain ⟨kvs, rfl⟩ := isObj_exists h
      rw [serStep_obj]
      by_cases hw : fieldWritten f r om = true
      · rw [if_pos hw, if_pos hw, objFind_obj]
        exact lookupL_setL_self f.name (f.serB r om).2 kvs
      · rw [if_neg hw, if_neg hw, objFind_obj]
        exact lookupL_eraseL_self f.name kvs ((topSorted_obj kvs).mp hs)
    · exact ih (serStep r om acc g) f hN.2 hf (serStep_isObj r om g h)
        (serStep_topSorted r om g h hs)

theorem serFold_empty_of_no_writes {ρ : Type} (r : ρ) (om : Bool) :
    ∀ (fields : List (Field ρ)), (∀ f ∈ fields, fieldWritten f r om = false) →
      List.foldl (serStep r om) (J.obj []) fields = J.obj [] := by
  intro fields
  induction fields with
  | nil => intro _; rfl
  | cons g rest ih =>
    intro h
    rw [List.foldl_cons, serStep_obj,
      if_neg (by rw [h g (List.mem_cons_self g rest)]; exact Bool.false_ne_true)]
    exact ih (fun f hf => h f (List.mem_cons_of_mem g hf))

theorem serializeVisitable_isObj {ρ : Type} (fields : List (Field ρ)) (j : J) (r : ρ)
    (om : Bool) : (serializeVisitable fields j r om).isObj = true :=
  serFold_isObj r om fields (startObj j) (startObj_isObj j)

theorem serializeVisitable_topSorted {ρ : Type} (fields : List (Field ρ)) (j : J) (r : ρ)
    (om : Bool) (hS : TopSorted j) : TopSorted (serializeVisitable fields j r om) :=
  serFold_topSorted r om fields (startObj j) (startObj_isObj j) (topSorted_startObj hS)

theorem serializeVisitable_objFind_mem {ρ : Type} (fields : List (Field ρ)) (j : J)
    (r : ρ) (om : Bool) (f : Field ρ) (hN : (fields.map Field.name).Nodup)
    (hf : f ∈ fields) (hS : TopSorted j) :
    (serializeVisitable fields j r om).objFind f.name =
      if fieldWritten f r om then some (f.serB r om).2 else none :=
  serFold_field r om fields (startObj j) f hN hf (startObj_isObj j) (topSorted_startObj hS)

theorem serializeVisitable_objFind_not_mem {ρ : Type} (fields : List (Field ρ)) (j : J)
    (r : ρ) (om : Bool) (k : Str) (hk : k ∉ fields.map Field.name) :
    (serializeVisitable fields j r om).objFind k = (startObj j).objFind k :=
  serFold_frame r om fields (startObj j) k (startObj_isObj j) hk

/--
Serializing twice on top of the previous output reproduces it: the set of
written fields and their encodings depend only on the root value, so a second
merge pass over the first pass's document is the identity.
-/
theorem serializeVisitable_idem {ρ : Type} (fields : List (Field ρ))
    (hN : (fields.map Field.name).Nodup) (r : ρ) (om : Bool) (old : J)
    (hS : TopSorted old) :
    serializeVisitable fields (serializeVisitable fields old r om) r om =
      serializeVisitable fields old r om := by
  have hObjOut := serializeVisitable_isObj fields old r om
  have hSortOut := serializeVisitable_topSorted fields old r om hS
  apply objFind_ext (serializeVisitable_isObj fields _ r om) hObjOut
    (serializeVisitable_topSorted fields _ r om hSortOut) hSortOut
  intro k
  by_cases hk : k ∈ fields.map Field.name
  · obtain ⟨f, hf, hfk⟩ := List.mem_map.mp hk
    subst hfk
    rw [serializeVisitable_objFind_mem fields _ r om f hN hf hSortOut,
      serializeVisitable_objFind_mem fields old r om f hN hf hS]
  · rw [serializeVisitable_objFind_not_mem fields _ r om k hk,
      startObj_of_isObj hObjOut]

/--
An empty serialization forces an empty serialization from a null prior
document as well: emptiness of the merged result implies no field was
written, and the decision to write depends only on the root value.
-/
theorem serializeVisitable_null_empty {ρ : Type} (fields : List (Field ρ))
    (hN : (fields.map Field.name).Nodup) (r : ρ) (om : Bool) (old : J)
    (hS : TopSorted old)
    (hE : (serializeVisitable fields old r om).isEmpty = true) :
    (serializeVisitable fields J.null r om).isEmpty = true := by
  have hw : ∀ f ∈ fields, fieldWritten f r om = false := by
    intro f hf
    by_contra hW
    rw [Bool.not_eq_false] at hW
    have h1 := serializeVisitable_objFind_mem fields old r om f hN hf hS
    rw [if_pos hW] at h1
    rw [isEmpty_false_of_objFind h1] at hE
    exact Bool.false_ne_true hE
  have h2 : serializeVisitable fields J.null r om = J.obj [] := by
    rw [serializeVisitable]
    exact serFold_empty_of_no_writes r om fields hw
  rw [h2]
  rfl

/-- Unfolding of saveG with no prior on-disk document. -/
theorem saveG_none {ρ : Type} (fields : List (Field ρ)) (r : ρ) :
    saveG fields none r =
      if (serializeVisitable fields J.null r true).isEmpty = true then (none, false)
      else (some (serializeVisitable fields J.null r true), true) := by
  by_cases hE : (serializeVisitable fields J.null r true).isEmpty = true
  · simp only [saveG, serializeVisitableB, hE, if_pos]
    simp
  · rw [Bool.not_eq_true] at hE
    have hB : J.beq (serializeVisitable fields J.null r true) J.null = false :=
      beq_null_of_isObj (serializeVisitable_isObj fields J.null r true)
    simp only [saveG, serializeVisitableB, hE, hB]
    simp

/-- Unfolding of saveG with a prior on-disk document. -/
theorem saveG_some {ρ : Type} (fields : List (Field ρ)) (d : J) (r : ρ) :
    saveG fields (some d) r =
      if (serializeVisitable fields d r true).isEmpty = true then (none, false)
      else if J.beq (serializeVisitable fields d r true) d = true then (some d, false)
      else (some (serializeVisitable fields d r true), true) := by
  by_cases hE : (serializeVisitable fields d r true).isEmpty = true
  · simp only [saveG, serializeVisitableB, hE, if_pos]
    simp
  · rw [Bool.not_eq_true] at hE
    by_cases hB : J.beq (serializeVisitable fields d r true) d = true
    · simp only [saveG, serializeVisitableB, hE, hB]
      simp
    · rw [Bool.not_eq_true] at hB
      simp only [saveG, serializeVisitableB, hE, hB]
      simp

/--
Saving twice with no intervening mutation never writes on the second call:
either the first save emptied the file and the second serializes empty again,
or the second serialization reproduces the first save's on-disk document
byte for byte and the write is skipped.
-/
theorem saveG_twice_no_write {ρ : Type} (fields : List (Field ρ))
    (hN : (fields.map Field.name).Nodup) (disk : Option J) (r : ρ)
    (hS : OptTopSorted disk) :
    (saveG fields (saveG fields disk r).1 r).2 = false := by
  cases disk with
  | none =>
    rw [saveG_none]
    by_cases hE : (serializeVisitable fields J.null r true).isEmpty = true
    · rw [if_pos hE, saveG_none, if_pos hE]
    · rw [if_neg hE, Bool.not_eq_true] at *
      rw [saveG_some,
        serializeVisitable_idem fields hN r true J.null trivial, hE]
      rw [if_neg (by exact Bool.false_ne_true), if_pos (beq_refl _)]
  | some d =>
    have hSd : TopSorted d := hS
    rw [saveG_some]
    by_cases hE : (serializeVisitable fields d r true).isEmpty = true
    · rw [if_pos hE, saveG_none,
        if_pos (serializeVisitable_null_empty fields hN r true d hSd hE)]
    · rw [if_neg hE]
      rw [Bool.not_eq_true] at hE
      by_cases hB : J.beq (serializeVisitable fields d r true) d = true
      · rw [if_pos hB, saveG_some, hE]
        rw [if_neg (by exact Bool.false_ne_true), if_pos hB]
      · rw [if_neg hB, saveG_some,
          serializeVisitable_idem fields hN r true d hSd, hE]
        rw [if_neg (by exact Bool.false_ne_true), if_pos (beq_refl _)]

/- ===== Lemmas: container codecs ===== -/

theorem setL_append_of_lt {κ α : Type} [LinearOrder κ] (k : κ) (v : α) :
    ∀ l : List (κ × α), (∀ q ∈ l, q.1 < k) → setL k v l = l ++ [(k, v)] := by
  intro l
  induction l with
  | nil => intro _; rfl
  | cons p t ih =>
    intro h
    have hp := h p (List.mem_cons_self p t)
    rw [setL_cons, if_neg (not_lt_of_gt hp), if_neg (ne_of_gt hp),
      ih (fun q hq => h q (List.mem_cons_of_mem p hq)), List.cons_append]

theorem emplaceL_append_of_lt {κ α : Type} [LinearOrder κ] (k : κ) (v : α) :
    ∀ l : List (κ × α), (∀ q ∈ l, q.1 < k) → emplaceL k v l = l ++ [(k, v)] := by
  intro l
  induction l with
  | nil => intro _; rfl
  | cons p t ih =>
    intro h
    have hp := h p (List.mem_cons_self p t)
    rw [emplaceL_cons, if_neg (not_lt_of_gt hp), if_neg (ne_of_gt hp),
      ih (fun q hq => h q (List.mem_cons_of_mem p hq)), List.cons_append]

theorem foldl_objSet_map {α : Type} (g : Str × α → J) :
    ∀ (m : List (Str × α)) (acc : List (Str × J)),
      KeysSorted m → (∀ q ∈ acc, ∀ p ∈ m, q.1 < p.1) →
      List.foldl (fun accj kv => accj.objSet kv.1 (g kv)) (J.obj acc) m =
        J.obj (acc ++ m.map (fun kv => (kv.1, g kv))) := by
  intro m
  induction m with
  | nil => intro acc _ _; simp
  | cons p t ih =>
    intro acc hs hacc
    obtain ⟨hlt, ht⟩ := List.pairwise_cons.mp hs
    rw [List.foldl_cons]
    have h1 : (J.obj acc).objSet p.1 (g p) = J.obj (acc ++ [(p.1, g p)]) := by
      rw [J.objSet, setL_append_of_lt p.1 (g p) acc
        (fun q hq => hacc q hq p (List.mem_cons_self p t))]
    rw [h1, ih (acc ++ [(p.1, g p)]) ht ?_]
    · rw [List.map_cons, List.append_assoc, List.singleton_append]
    · intro q hq x hx
      rcases List.mem_append.mp hq with h | h
      · exact hacc q h x (List.mem_cons_of_mem p hx)
      · rw [List.mem_singleton.mp h]
        exact hlt x hx

theorem foldl_emplaceL_map {α β : Type} (gv : Str × α → β) :
    ∀ (kvs : List (Str × α)) (acc : List (Str × β)),
      KeysSorted kvs → (∀ q ∈ acc, ∀ p ∈ kvs, q.1 < p.1) →
      List.foldl (fun c kv => emplaceL kv.1 (gv kv) c) acc kvs =
        acc ++ kvs.map (fun kv => (kv.1, gv kv)) := by
  intro kvs
  induction kvs with
  | nil => intro acc _ _; simp
  | cons p t ih =>
    intro acc hs hacc
    obtain ⟨hlt, ht⟩ := List.pairwise_cons.mp hs
    rw [List.foldl_cons,
      emplaceL_append_of_lt p.1 (gv p) acc
        (fun q hq => hacc q hq p (List.mem_cons_self p t)),
      ih (acc ++ [(p.1, gv p)]) ht ?_]
    · rw [List.map_cons, List.append_assoc, List.singleton_append]
    · intro q hq x hx
      rcases List.mem_append.mp hq with h | h
      · exact hacc q h x (List.mem_cons_of_mem p hx)
      · rw [List.mem_singleton.mp h]
        exact hlt x hx

theorem serializeMapB_sorted {α : Type} (enc : α → Bool → Bool × J) (om : Bool)
    (m : List (Str × α)) (hs : KeysSorted m) :
    serializeMapB enc om m =
      (!m.isEmpty, J.obj (m.map (fun kv => (kv.1, (enc kv.2 om).2)))) := by
  rw [serializeMapB]
  have h1 := foldl_objSet_map (fun kv => (enc kv.2 om).2) m [] hs
    (fun q hq => absurd hq (List.not_mem_nil q))
  rw [List.nil_append] at h1
  rw [h1]
  cases m with
  | nil => rfl
  | cons p t => rfl

theorem deserializeMapB_obj_sorted {α : Type} (dec : J → α → Bool × α) (d : α)
    (kvs : List (Str × J)) (cont : List (Str × α)) (hs : KeysSorted kvs) :
    deserializeMapB dec d (J.obj kvs) cont =
      (true, kvs.map (fun kv => (kv.1, (dec kv.2 d).2))) := by
  rw [deserializeMapB]
  have h1 := foldl_emplaceL_map (fun kv => (dec kv.2 d).2) kvs [] hs
    (fun q hq => absurd hq (List.not_mem_nil q))
  rw [List.nil_append] at h1
  rw [h1]

theorem fmapEncItems_all_ok {κ α : Type} (encK : κ → Bool × J)
    (enc : α → Bool → Bool × J) (om : Bool) :
    ∀ m : List (κ × α), (∀ p ∈ m, (encK p.1).1 = true) →
      fmapEncItems encK enc om m =
        m.map (fun kv => J.arr [(encK kv.1).2, (enc kv.2 om).2]) := by
  intro m
  induction m with
  | nil => intro _; rfl
  | cons p t ih =>
    intro h
    rw [fmapEncItems, ih (fun x hx => h x (List.mem_cons_of_mem p hx)), List.map_cons]
    rw [if_pos (h p (List.mem_cons_self p t))]
    rfl

theorem foldl_fmapDecStep {κ α : Type} [LinearOrder κ] (decK : J → κ → Bool × κ)
    (dK : κ) (decE : J → α → Bool × α) (d : α) (encK : κ → Bool × J)
    (encE : α → Bool → Bool × J)
    (hE : ∀ x, decE (encE x false).2 d = (true, x))
    (hK : ∀ k, decK (encK k).2 dK = (true, k)) :
    ∀ (fm : List (κ × α)) (acc : List (κ × α)), KeysSorted fm →
      (∀ q ∈ acc, ∀ p ∈ fm, q.1 < p.1) →
      List.foldl (fmapDecStep decK dK decE d) acc
          (fm.map (fun kv => J.arr [(encK kv.1).2, (encE kv.2 false).2])) =
        acc ++ fm := by
  intro fm
  induction fm with
  | nil => intro acc _ _; simp
  | cons p t ih =>
    intro acc hs hacc
    obtain ⟨hlt, ht⟩ := List.pairwise_cons.mp hs
    rw [List.map_cons, List.foldl_cons]
    have h1 : fmapDecStep decK dK decE d acc
        (J.arr [(encK p.1).2, (encE p.2 false).2]) = acc ++ [p] := by
      rw [fmapDecStep]
      simp only [hK p.1, hE p.2, if_pos]
      rw [emplaceL_append_of_lt p.1 p.2 acc
        (fun q hq => hacc q hq p (List.mem_cons_self p t))]
    rw [h1, ih (acc ++ [p]) ht ?_]
    · rw [List.append_assoc, List.singleton_append]
    · intro q hq x hx
      rcases List.mem_append.mp hq with h | h
      · exact hacc q h x (List.mem_cons_of_mem p hx)
      · rw [List.mem_singleton.mp h]
        exact hlt x hx

/- ===== Lemmas: the concrete Record's deserializer, field by field ===== -/

theorem recFields_names_nodup : (recFields.map Field.name).Nodup := by
  decide

theorem deserStep_fieldB_eq (j : J) (acc : Rec) :
    deserStep j acc fieldB =
      { acc with b := match j.objFind fieldB.name with
                      | some v => (decBoolJ v acc.b).2
                      | none => if acc.b == recDefault.b then acc.b
                                else recDefault.b } := by
  rw [deserStep]
  cases h : j.objFind fieldB.name with
  | some v => rfl
  | none =>
    cases hd : acc.b == recDefault.b with
    | true => simp [fieldB, hd]
    | false => simp [fieldB, hd]

theorem deserStep_fieldS_eq (j : J) (acc : Rec) :
    deserStep j acc fieldS =
      { acc with s := match j.objFind fieldS.name with
                      | some v => (decStrJ v acc.s).2
                      | none => if acc.s == recDefault.s then acc.s
                                else recDefault.s } := by
  rw [deserStep]
  cases h : j.objFind fieldS.name with
  | some v => rfl
  | none =>
    cases hd : acc.s == recDefault.s with
    | true => simp [fieldS, hd]
    | false => simp [fieldS, hd]

theorem deserStep_fieldI_eq (j : J) (acc : Rec) :
    deserStep j acc fieldI =
      { acc with i := match j.objFind fieldI.name with
                      | some v => (decIntJ v acc.i).2
                      | none => if acc.i == recDefault.i then acc.i
                                else recDefault.i } := by
  rw [deserStep]
  cases h : j.objFind fieldI.name with
  | some v => rfl
  | none =>
    cases hd : acc.i == recDefault.i with
    | true => simp [fieldI, hd]
    | false => simp [fieldI, hd]

theorem deserStep_fieldA_eq (j : J) (acc : Rec) :
    deserStep j acc fieldA =
      { acc with a := match j.objFind fieldA.name with
                      | some v => (deserializeArrB decIntJ 0 v acc.a).2
                      | none => if acc.a == recDefault.a then acc.a
                                else recDefault.a } := by
  rw [deserStep]
  cases h : j.objFind fieldA.name with
  | some v => rfl
  | none =>
    cases hd : acc.a == recDefault.a with
    | true => simp [fieldA, hd]
    | false => simp [fieldA, hd]

theorem deserStep_fieldM_eq (j : J) (acc : Rec) :
    deserStep j acc fieldM =
      { acc with m := match j.objFind fieldM.name with
                      | some v => (deserializeMapB decIntJ 0 v acc.m).2
                      | none => if acc.m == recDefault.m then acc.m
                                else recDefault.m } := by
  rw [deserStep]
  cases h : j.objFind fieldM.name with
  | some v => rfl
  | none =>
    cases hd : acc.m == recDefault.m with
    | true => simp [fieldM, hd]
    | false => simp [fieldM, hd]

/- ===== Claim theorems ===== -/

/--
C1: decoding an object-shaped document into the Record decodes every field
whose key is present (applying the member deserializer to the current
value), resets every absent field whose current value differs from the
Default Set back to its default, and leaves absent fields that already
equal their default untouched.
-/
theorem C1_record_decode_fields (j : J) (r : Rec) (hObj : j.isObj = true) :
    deserializeVisitable recFields j r =
      (true,
        { b := match j.objFind fieldB.name with
               | some v => (decBoolJ v r.b).2
               | none => if r.b == recDefault.b then r.b else recDefault.b
          s := match j.objFind fieldS.name with
               | some v => (decStrJ v r.s).2
               | none => if r.s == recDefault.s then r.s else recDefault.s
          i := match j.objFind fieldI.name with
               | some v => (decIntJ v r.i).2
               | none => if r.i == recDefault.i then r.i else recDefault.i
          a := match j.objFind fieldA.name with
               | some v => (deserializeArrB decIntJ 0 v r.a).2
               | none => if r.a == recDefault.a then r.a else recDefault.a
          m := match j.objFind fieldM.name with
               | some v => (deserializeMapB decIntJ 0 v r.m).2
               | none => if r.m == recDefault.m then r.m else recDefault.m }) := by
  simp only [deserializeVisitable, hObj, Bool.not_true, Bool.false_eq_true, if_false,
    recFields, List.foldl_cons, List.foldl_nil]
  rw [deserStep_fieldB_eq, deserStep_fieldS_eq, deserStep_fieldI_eq,
    deserStep_fieldA_eq, deserStep_fieldM_eq]

/--
Witness for C1 at a concrete input: b is present and decoded, i was mutated
and is restored to its default, the remaining fields stay at their defaults.
-/
theorem C1_record_decode_fields_witness :
    deserializeVisitable recFields (J.obj [("b".toList, J.bool false)])
      { recDefault with i := 5 } = (true, { recDefault with b := false }) := by
  rw [C1_record_decode_fields (J.obj [("b".toList, J.bool false)])
    { recDefault with i := 5 } rfl]
  rfl

/--
C2 (counterexample to the claim as stated): with omit_defaults false the
claim requires the key of field a to be written, but serializing a Record
whose a member is an empty container erases the key instead, because the
member serializer reports no content for an empty array.
-/
theorem C2_counterexample :
    (false = false ∨ ({ recDefault with a := ([] : List Int) } : Rec).a ≠ recDefault.a) ∧
    (serializeVisitable recFields (J.obj [("a".toList, J.arr [J.num 7])])
      { recDefault with a := ([] : List Int) } false).objFind "a".toList = none :=
  ⟨Or.inl rfl, rfl⟩

/--
C2 (amended): encode writes a field's key into the output object if and only
if (omit_defaults is false OR the field differs from its default) AND the
member serializer reported content (true return; in particular an empty
container member reports no content); otherwise the key is removed from the
pre-existing object.
-/
theorem C2_encode_field_key (j : J) (r : Rec) (om : Bool) (f : Field Rec)
    (hf : f ∈ recFields) (hS : TopSorted j) :
    ((serializeVisitable recFields j r om).objFind f.name =
      if fieldWritten f r om then some (f.serB r om).2 else none) ∧
    (fieldWritten f r om = true ↔
      ((om = false ∨ f.isDefault r = false) ∧ (f.serB r om).1 = true)) := by
  constructor
  · exact serializeVisitable_objFind_mem recFields j r om f recFields_names_nodup hf hS
  · rw [fieldWritten]
    simp only [Bool.and_eq_true, Bool.or_eq_true, Bool.not_eq_true']

/-- Witness for C2 (amended) at the field i with a non-default value. -/
theorem C2_encode_field_key_witness :
    (serializeVisitable recFields J.null { recDefault with i := 5 } true).objFind
      fieldI.name = some (J.num 5) := by
  have h := C2_encode_field_key J.null { recDefault with i := 5 } true fieldI
    (show fieldI ∈ [fieldB, fieldS, fieldI, fieldA, fieldM] from
      List.mem_cons_of_mem fieldB (List.mem_cons_of_mem fieldS
        (List.mem_cons_self fieldI [fieldA, fieldM]))) trivial
  rw [h.1]
  rfl

theorem map_id_of_eq {α : Type} : ∀ (l : List α) (f : α → α),
    (∀ x ∈ l, f x = x) → l.map f = l := by
  intro l
  induction l with
  | nil => intro _ _; rfl
  | cons p t ih =>
    intro f h
    rw [List.map_cons, h p (List.mem_cons_self p t),
      ih f (fun x hx => h x (List.mem_cons_of_mem p hx))]

theorem map_congr_mem {α β : Type} : ∀ (l : List α) (f g : α → β),
    (∀ x ∈ l, f x = g x) → l.map f = l.map g := by
  intro l
  induction l with
  | nil => intro _ _ _; rfl
  | cons p t ih =>
    intro f g h
    rw [List.map_cons, List.map_cons, h p (List.mem_cons_self p t),
      ih f g (fun x hx => h x (List.mem_cons_of_mem p hx))]

theorem decIntJ_fail : ∀ (jv : J) (v : Int),
    (decIntJ jv v).1 = false → (decIntJ jv v).2 = v := by
  intro jv v h
  cases jv <;> simp_all [decIntJ]

/--
C3: container round-trips. If the element codec round-trips into a freshly
default-constructed element, then decoding the encoding of a Sequence
(array-like) container, of a string-keyed Association, or of a foreign-keyed
Association (whose key codec also round-trips) reproduces the container.
-/
theorem C3_container_roundtrip {α κ : Type} [LinearOrder κ]
    (encE : α → Bool → Bool × J) (decE : J → α → Bool × α) (d : α)
    (encK : κ → Bool × J) (decK : J → κ → Bool × κ) (dK : κ)
    (hE : ∀ x, decE (encE x false).2 d = (true, x))
    (hK : ∀ k, (encK k).1 = true ∧ decK (encK k).2 dK = (true, k)) :
    (∀ (xs : List α) (cont : List α),
      deserializeArrB decE d (serializeArrB encE false xs).2 cont = (true, xs)) ∧
    (∀ (m : List (Str × α)) (cont : List (Str × α)), KeysSorted m →
      deserializeMapB decE d (serializeMapB encE false m).2 cont = (true, m)) ∧
    (∀ (fm : List (κ × α)) (cont : List (κ × α)), KeysSorted fm →
      deserializeFMapB decK dK decE d (serializeFMapB encK encE false fm).2 cont =
        (true, fm)) := by
  refine ⟨?_, ?_, ?_⟩
  · intro xs cont
    rw [serializeArrB, deserializeArrB, List.map_map]
    rw [map_id_of_eq xs _ (fun x _ => by rw [Function.comp_apply, hE x])]
  · intro m cont hs
    rw [serializeMapB_sorted encE false m hs]
    rw [deserializeMapB_obj_sorted decE d _ cont
      (List.pairwise_map.mpr hs), List.map_map]
    rw [map_id_of_eq m _ (fun kv _ => by
      rw [Function.comp_apply]
      rw [show (decE ((fun kv : Str × α => (encE kv.2 false).2) kv) d).2 = kv.2 by
        rw [hE kv.2]])]
  · intro fm cont hs
    rw [serializeFMapB,
      fmapEncItems_all_ok encK encE false fm (fun p _ => (hK p.1).1),
      deserializeFMapB]
    rw [foldl_fmapDecStep decK dK decE d encK encE hE (fun k => (hK k).2) fm []
      hs (fun q hq => absurd hq (List.not_mem_nil q))]
    rw [List.nil_append]

/-- Witness for C3 with integer elements and integer foreign keys. -/
theorem C3_container_roundtrip_witness :
    deserializeArrB decIntJ 0 (serializeArrB encIntE false [1, 2]).2 [] =
      (true, [1, 2]) ∧
    deserializeMapB decIntJ 0 (serializeMapB encIntE false [("x".toList, 5)]).2 [] =
      (true, [("x".toList, 5)]) ∧
    deserializeFMapB decIntJ 0 decIntJ 0
      (serializeFMapB (fun n : Int => (true, J.num n)) encIntE false [((2 : Int), 7)]).2
      [] = (true, [(2, 7)]) := by
  have h := C3_container_roundtrip encIntE decIntJ 0 (fun n : Int => (true, J.num n))
    decIntJ 0 (fun x => rfl) (fun k => ⟨rfl, rfl⟩)
  exact ⟨h.1 [1, 2] [], h.2.1 [("x".toList, 5)] [] (by simp),
    h.2.2 [((2 : Int), 7)] [] (by simp)⟩

/--
C10: decoding a correctly shaped document into a Sequence or string-keyed
Association always succeeds and produces exactly one entry per input array
element / object key; an element whose own decode fails (for a decoder that
leaves its target unchanged on failure) is still inserted, as a
default-constructed value.
-/
theorem C10_container_decode_total {α : Type} (dec : J → α → Bool × α) (d : α)
    (hFail : ∀ jv v, (dec jv v).1 = false → (dec jv v).2 = v) :
    (∀ (vs : List J) (cont : List α),
      deserializeArrB dec d (J.arr vs) cont =
        (true, vs.map (fun v => if (dec v d).1 then (dec v d).2 else d)) ∧
      (deserializeArrB dec d (J.arr vs) cont).2.length = vs.length) ∧
    (∀ (kvs : List (Str × J)) (cont : List (Str × α)), KeysSorted kvs →
      deserializeMapB dec d (J.obj kvs) cont =
        (true, kvs.map (fun kv =>
          (kv.1, if (dec kv.2 d).1 then (dec kv.2 d).2 else d))) ∧
      (deserializeMapB dec d (J.obj kvs) cont).2.map Prod.fst =
        kvs.map Prod.fst) := by
  have hcg : ∀ (v : J), (dec v d).2 = if (dec v d).1 then (dec v d).2 else d := by
    intro v
    cases h : (dec v d).1 with
    | true => rw [if_pos rfl]
    | false =>
      rw [if_neg (by exact Bool.false_ne_true)]
      exact hFail v d h
  constructor
  · intro vs cont
    constructor
    · rw [deserializeArrB]
      rw [map_congr_mem vs (fun v => (dec v d).2)
        (fun v => if (dec v d).1 then (dec v d).2 else d) (fun v _ => hcg v)]
    · rw [deserializeArrB]
      rw [List.length_map]
  · intro kvs cont hs
    constructor
    · rw [deserializeMapB_obj_sorted dec d kvs cont hs]
      rw [map_congr_mem kvs (fun kv => (kv.1, (dec kv.2 d).2))
        (fun kv => (kv.1, if (dec kv.2 d).1 then (dec kv.2 d).2 else d))
        (fun kv _ => by
          show (kv.1, (dec kv.2 d).2) =
            (kv.1, if (dec kv.2 d).1 then (dec kv.2 d).2 else d)
          rw [← hcg kv.2])]
    · rw [deserializeMapB_obj_sorted dec d kvs cont hs, List.map_map]
      rfl

/-- Witness for C10: the second array element fails to decode as an integer
and is inserted as the default-constructed value 0. -/
theorem C10_container_decode_total_witness :
    deserializeArrB decIntJ 0 (J.arr [J.num 3, J.str "x"]) [] = (true, [3, 0]) := by
  have h := (C10_container_decode_total decIntJ 0 decIntJ_fail).1
    [J.num 3, J.str "x"] []
  rw [h.1]
  rfl

/--
C6: an on-disk document key that is not a field name of the Record survives
load() followed by save() with its value unchanged: serialization is merged
on top of the prior document and only touches field-name keys, and the
surviving key keeps the merged result non-empty so the file is not removed.
-/
theorem C6_unknown_key_preserved (d : J) (k : Str) (v : J) (r : Rec)
    (hObj : d.isObj = true)
    (hk : k ∉ recFields.map Field.name) (hfind : d.objFind k = some v) :
    ∃ out : J,
      (saveG recFields (some d) ((deserializeVisitable recFields d r).2)).1 =
        some out ∧
      out.objFind k = some v := by
  have hframe : (serializeVisitable recFields d
      ((deserializeVisitable recFields d r).2) true).objFind k = some v := by
    rw [serializeVisitable_objFind_not_mem recFields d _ true k hk,
      startObj_of_isObj hObj, hfind]
  have hE : (serializeVisitable recFields d
      ((deserializeVisitable recFields d r).2) true).isEmpty = false :=
    isEmpty_false_of_objFind hframe
  rw [saveG_some, hE]
  rw [if_neg (by exact Bool.false_ne_true)]
  by_cases hB : J.beq (serializeVisitable recFields d
      ((deserializeVisitable recFields d r).2) true) d = true
  · rw [if_pos hB]
    exact ⟨d, rfl, hfind⟩
  · rw [if_neg hB]
    exact ⟨_, rfl, hframe⟩

/-- Witness for C6 with the unrecognized key zz. -/
theorem C6_unknown_key_preserved_witness :
    ∃ out : J,
      (saveG recFields (some (J.obj [("b".toList, J.bool false), ("zz".toList, J.num 5)]))
        ((deserializeVisitable recFields
          (J.obj [("b".toList, J.bool false), ("zz".toList, J.num 5)])
          recDefault).2)).1 = some out ∧
      out.objFind "zz".toList = some (J.num 5) :=
  C6_unknown_key_preserved (J.obj [("b".toList, J.bool false), ("zz".toList, J.num 5)])
    "zz".toList (J.num 5) recDefault rfl (by decide) rfl

/--
C8 (counterexample to the claim as stated): from a state with no backing
file and an all-default root, calling save() twice performs zero filesystem
writes, not exactly one: the first save also has nothing to write.
-/
theorem C8_counterexample :
    (saveG recFields none recDefault).2 = false ∧
    (saveG recFields (saveG recFields none recDefault).1 recDefault).2 = false :=
  ⟨rfl, rfl⟩

/--
C8 (amended): calling save() twice in succession with no intervening
mutation of the root performs at most one filesystem write: the second call
never writes — it either serializes an empty result again (file stays
removed) or finds the serialized output identical to the on-disk document
and skips the write entirely.
-/
theorem C8_save_idempotent (disk : Option J) (r : Rec) (hS : OptTopSorted disk) :
    (saveG recFields (saveG recFields disk r).1 r).2 = false :=
  saveG_twice_no_write recFields recFields_names_nodup disk r hS

/-- Witness for C8 (amended) from a state whose first save does write. -/
theorem C8_save_idempotent_witness :
    (saveG recFields (saveG recFields none { recDefault with i := 123 }).1
      { recDefault with i := 123 }).2 = false :=
  C8_save_idempotent none { recDefault with i := 123 } trivial

/--
C4 (counterexample to the claim as stated): a successful remote Set call
changes the on-disk backing file itself — the handler calls save() before
replying — rather than leaving it unchanged until the caller separately
saves; and no mutation callback exists to be notified.
-/
theorem C4_counterexample :
    (dbusSet { disk := none, root := recDefault } ("i".toList)
      (some (J.num 123))).2 = DReply.ok ∧
    (dbusSet { disk := none, root := recDefault } ("i".toList)
      (some (J.num 123))).1.disk = some (J.obj [("i".toList, J.num 123)]) := by
  have h1 : setVisitRec (some (J.num 123)) true recDefault ("i".toList) =
      SOut.ok { recDefault with i := 123 } := rfl
  have h2 : (saveG recFields none { recDefault with i := 123 }).1 =
      some (J.obj [("i".toList, J.num 123)]) := by
    rw [saveG_none,
      show serializeVisitable recFields J.null { recDefault with i := 123 } true =
        J.obj [("i".toList, J.num 123)] from rfl]
    rw [if_neg (by decide)]
  constructor
  · simp only [dbusSet, h1]
  · simp only [dbusSet, h1]
    exact h2

/--
C4 (amended): on a successful Set the handler decodes into the resolved node
and then itself invokes save() before replying, so when the call returns the
on-disk state already equals what save() produces for the updated root, and
a subsequent explicit save() by the caller performs no filesystem write; no
mutation callback is involved.
-/
theorem C4_set_persists (st : TreeState) (path : List Char) (pv : Option J) (r2 : Rec)
    (hS : OptTopSorted st.disk)
    (hOk : setVisitRec pv true st.root path = SOut.ok r2) :
    (dbusSet st path pv).2 = DReply.ok ∧
    (dbusSet st path pv).1.root = r2 ∧
    (dbusSet st path pv).1.disk = (saveG recFields st.disk r2).1 ∧
    (saveG recFields (dbusSet st path pv).1.disk r2).2 = false := by
  have hd : dbusSet st path pv =
      ({ disk := (saveG recFields st.disk r2).1, root := r2 }, DReply.ok) := by
    simp only [dbusSet, hOk]
  rw [hd]
  exact ⟨rfl, rfl, rfl,
    saveG_twice_no_write recFields recFields_names_nodup st.disk r2 hS⟩

/-- Witness for C4 (amended) at a concrete successful Set. -/
theorem setVisitLeaf_none {α : Type} (dec : J → α → Bool × α) (v : α)
    (p : List Char) :
    setVisitLeaf dec none v p = SOut.parseError v ∨
      setVisitLeaf dec none v p = SOut.notFound v := by
  rw [setVisitLeaf]
  by_cases h : p.isEmpty = true
  · rw [if_pos h]
    exact Or.inl rfl
  · rw [if_neg h]
    exact Or.inr rfl

theorem setVisitList_none (xs : List Int) (p : List Char) :
    (∃ ys, setVisitList none xs p = SOut.parseError ys) ∨
      (∃ ys, setVisitList none xs p = SOut.notFound ys) := by
  rw [setVisitList]
  by_cases h : p.isEmpty = true
  · rw [if_pos h]
    exact Or.inl ⟨xs, rfl⟩
  · rw [if_neg h]
    dsimp only
    cases hpi : parseIndex (splitPath p).1 with
    | none => exact Or.inr ⟨xs, rfl⟩
    | some i =>
      dsimp only
      cases hg : xs.get? i with
      | none => exact Or.inr ⟨xs, rfl⟩
      | some e =>
        dsimp only
        rcases setVisitLeaf_none decIntJ e (splitPath p).2 with h1 | h1 <;>
          rw [h1, mapSOut]
        · exact Or.inl ⟨_, rfl⟩
        · exact Or.inr ⟨_, rfl⟩

theorem setVisitMap_none (m : List (Str × Int)) (ins : Bool) (p : List Char) :
    (∃ ys, setVisitMap none ins m p = SOut.parseError ys) ∨
      (∃ ys, setVisitMap none ins m p = SOut.notFound ys) := by
  rw [setVisitMap]
  by_cases h : p.isEmpty = true
  · rw [if_pos h]
    exact Or.inl ⟨m, rfl⟩
  · rw [if_neg h]
    dsimp only
    by_cases h2 : (splitPath p).1.isEmpty = true
    · rw [if_pos h2]
      exact Or.inr ⟨m, rfl⟩
    · rw [if_neg h2]
      cases hlk : lookupL (if ins = true then emplaceL (splitPath p).1 0 m else m)
          (splitPath p).1 with
      | none => exact Or.inr ⟨_, rfl⟩
      | some e =>
        dsimp only
        rcases setVisitLeaf_none decIntJ e (splitPath p).2 with h1 | h1 <;>
          rw [h1, mapSOut]
        · exact Or.inl ⟨_, rfl⟩
        · exact Or.inr ⟨_, rfl⟩

theorem setVisitRec_none (r : Rec) (ins : Bool) (p : List Char) :
    (∃ r2, setVisitRec none ins r p = SOut.parseError r2) ∨
      (∃ r2, setVisitRec none ins r p = SOut.notFound r2) := by
  rw [setVisitRec]
  by_cases h : p.isEmpty = true
  · rw [if_pos h]
    exact Or.inl ⟨r, rfl⟩
  · rw [if_neg h]
    by_cases h1 : (splitPath p).1 = "b".toList
    · rw [if_pos h1]
      rcases setVisitLeaf_none decBoolJ r.b (splitPath p).2 with h2 | h2 <;>
        rw [h2, mapSOut]
      · exact Or.inl ⟨_, rfl⟩
      · exact Or.inr ⟨_, rfl⟩
    · rw [if_neg h1]
      by_cases h2 : (splitPath p).1 = "s".toList
      · rw [if_pos h2]
        rcases setVisitLeaf_none decStrJ r.s (splitPath p).2 with h3 | h3 <;>
          rw [h3, mapSOut]
        · exact Or.inl ⟨_, rfl⟩
        · exact Or.inr ⟨_, rfl⟩
      · rw [if_neg h2]
        by_cases h3 : (splitPath p).1 = "i".toList
        · rw [if_pos h3]
          rcases setVisitLeaf_none decIntJ r.i (splitPath p).2 with h4 | h4 <;>
            rw [h4, mapSOut]
          · exact Or.inl ⟨_, rfl⟩
          · exact Or.inr ⟨_, rfl⟩
        · rw [if_neg h3]
          by_cases h4 : (splitPath p).1 = "a".toList
          · rw [if_pos h4]
            rcases setVisitList_none r.a (splitPath p).2 with ⟨ys, h5⟩ | ⟨ys, h5⟩ <;>
              rw [h5, mapSOut]
            · exact Or.inl ⟨_, rfl⟩
            · exact Or.inr ⟨_, rfl⟩
          · rw [if_neg h4]
            by_cases h5 : (splitPath p).1 = "m".toList
            · rw [if_pos h5]
              rcases setVisitMap_none r.m ins (splitPath p).2 with ⟨ys, h6⟩ | ⟨ys, h6⟩ <;>
                rw [h6, mapSOut]
              · exact Or.inl ⟨_, rfl⟩
              · exact Or.inr ⟨_, rfl⟩
            · rw [if_neg h5]
              exact Or.inr ⟨r, rfl⟩

/--
C5 (counterexample to the claim as stated): a Set call on path m/z whose
payload fails to parse reports InvalidArgument but does not leave the tree
unchanged: parsing happens inside the visitor, after path resolution with
insertion enabled, so the default entry created at key z during resolution
survives the failed call.
-/
theorem C5_counterexample :
    (dbusSet { disk := none, root := recDefault } ("m/z".toList) none).2 =
      DReply.errInvalid ∧
    (dbusSet { disk := none, root := recDefault } ("m/z".toList) none).1.root.m =
      [("x".toList, 11), ("y".toList, 22), ("z".toList, 0)] ∧
    (dbusSet { disk := none, root := recDefault } ("m/z".toList) none).1.root ≠
      recDefault :=
  ⟨rfl, rfl, by decide⟩

/--
C5 (amended): a Set call whose payload is not parseable reports
InvalidArgument whenever resolution reaches a node (NotFound otherwise) and
never changes the on-disk document; but parsing happens inside the resolved
visitor, after path resolution with insertion enabled, so Association
entries inserted during resolution remain in the tree.
-/
theorem C5_parse_failure (st : TreeState) (path : List Char) :
    (dbusSet st path none).1.disk = st.disk ∧
    ((dbusSet st path none).2 = DReply.errInvalid ∨
      (dbusSet st path none).2 = DReply.errNotFound) := by
  rcases setVisitRec_none st.root true path with ⟨r2, h⟩ | ⟨r2, h⟩
  · have hd : dbusSet st path none = ({ st with root := r2 }, DReply.errInvalid) := by
      simp only [dbusSet, h]
    rw [hd]
    exact ⟨rfl, Or.inl rfl⟩
  · have hd : dbusSet st path none = ({ st with root := r2 }, DReply.errNotFound) := by
      simp only [dbusSet, h]
    rw [hd]
    exact ⟨rfl, Or.inr rfl⟩

/-- Witness for C5 (amended) at the concrete failing Set of the
counterexample. -/
theorem C5_parse_failure_witness :
    (dbusSet { disk := none, root := recDefault } ("m/z".toList) none).1.disk =
      none ∧
    ((dbusSet { disk := none, root := recDefault } ("m/z".toList) none).2 =
        DReply.errInvalid ∨
      (dbusSet { disk := none, root := recDefault } ("m/z".toList) none).2 =
        DReply.errNotFound) :=
  C5_parse_failure { disk := none, root := recDefault } ("m/z".toList)

theorem C4_set_persists_witness :
    (dbusSet { disk := none, root := recDefault } ("i".toList)
        (some (J.num 123))).2 = DReply.ok ∧
    (dbusSet { disk := none, root := recDefault } ("i".toList)
        (some (J.num 123))).1.root = { recDefault with i := 123 } ∧
    (dbusSet { disk := none, root := recDefault } ("i".toList)
        (some (J.num 123))).1.disk =
      (saveG recFields none { recDefault with i := 123 }).1 ∧
    (saveG recFields (dbusSet { disk := none, root := recDefault } ("i".toList)
        (some (J.num 123))).1.disk { recDefault with i := 123 }).2 = false :=
  C4_set_persists { disk := none, root := recDefault } ("i".toList)
    (some (J.num 123)) { recDefault with i := 123 } trivial rfl

/--
C7 (counterexample to the claim as stated): the literal path /m/z carries a
leading slash, so its first segment is empty; it matches no field of the
Record and resolution returns found=false without inserting anything, even
with insert_missing=true.
-/
theorem C7_counterexample :
    recVisitPath recDefault ("/m/z".toList) true = (false, recDefault) := rfl

/--
C7 (amended): resolving the path m/z (no leading slash) on the Record whose
string-keyed Association member m lacks key z creates a default-valued entry
at z and returns found=true when insert_missing is true; with
insert_missing=false the resolution returns found=false and leaves the
Association unmodified.
-/
theorem C7_resolve_map_insert (r : Rec) (hz : lookupL r.m "z".toList = none) :
    recVisitPath r ("m/z".toList) true =
      (true, { r with m := emplaceL "z".toList 0 r.m }) ∧
    lookupL (emplaceL "z".toList 0 r.m) "z".toList = some 0 ∧
    (∀ k, k ≠ "z".toList →
      lookupL (emplaceL "z".toList 0 r.m) k = lookupL r.m k) ∧
    recVisitPath r ("m/z".toList) false = (false, r) := by
  refine ⟨rfl, lookupL_emplaceL_absent "z".toList 0 r.m hz,
    fun k hk => lookupL_emplaceL_ne "z".toList k 0 hk r.m, ?_⟩
  show ((match lookupL r.m "z".toList with
        | none => (false, r.m)
        | some _ => (leafVisitP ([] : List Char), r.m)).1,
      { r with m := (match lookupL r.m "z".toList with
        | none => (false, r.m)
        | some _ => (leafVisitP ([] : List Char), r.m)).2 }) = (false, r)
  rw [hz]

/-- Witness for C7 (amended) on the Record defaults, whose map lacks z. -/
theorem C7_resolve_map_insert_witness :
    recVisitPath recDefault ("m/z".toList) true =
      (true, { recDefault with m := emplaceL "z".toList 0 recDefault.m }) ∧
    lookupL (emplaceL "z".toList 0 recDefault.m) "z".toList = some 0 ∧
    (∀ k, k ≠ "z".toList →
      lookupL (emplaceL "z".toList 0 recDefault.m) k = lookupL recDefault.m k) ∧
    recVisitPath recDefault ("m/z".toList) false = (false, recDefault) :=
  C7_resolve_map_insert recDefault rfl

theorem splitPath_no_slash (seg : List Char) (h : '/' ∉ seg) :
    splitPath seg = (seg, []) := by
  rw [splitPath]
  have hf : seg.findIdx? (· = '/') = none := by
    rw [List.findIdx?_eq_none_iff]
    intro c hc
    by_contra hcc
    rw [Bool.not_eq_false, decide_eq_true_iff] at hcc
    exact h (hcc ▸ hc)
  rw [hf]

theorem findIdx_append_slash_aux (seg : List Char) (h : '/' ∉ seg) :
    ∀ i : Nat, List.findIdx? (fun x => decide (x = '/')) (seg ++ ['/']) i =
      some (seg.length + i) := by
  induction seg with
  | nil =>
    intro i
    rw [List.nil_append, List.findIdx?_cons, if_pos (by rw [decide_eq_true_iff])]
    rw [List.length_nil, Nat.zero_add]
  | cons c t ih =>
    intro i
    have hc : c ≠ '/' := fun hcc => h (hcc ▸ List.mem_cons_self c t)
    rw [List.cons_append, List.findIdx?_cons]
    rw [if_neg (by rw [decide_eq_true_iff]; exact hc)]
    rw [ih (fun hm => h (List.mem_cons_of_mem c hm)) (i + 1)]
    rw [List.length_cons]
    congr 1
    omega

theorem findIdx_append_slash (seg : List Char) (h : '/' ∉ seg) :
    (seg ++ ['/']).findIdx? (· = '/') = some seg.length := by
  have h1 := findIdx_append_slash_aux seg h 0
  rw [Nat.add_zero] at h1
  exact h1

theorem splitPath_append_slash (seg : List Char) (h : '/' ∉ seg) :
    splitPath (seg ++ ['/']) = (seg, []) := by
  rw [splitPath, findIdx_append_slash seg h]
  dsimp only
  rw [List.take_left]
  rw [if_neg (by rw [List.length_append, List.length_cons, List.length_nil]; omega)]

theorem recVisitPath_eq_of_splitPath (r : Rec) (ins : Bool) (p q : List Char)
    (hp : p.isEmpty = false) (hq : q.isEmpty = false)
    (h : splitPath p = splitPath q) :
    recVisitPath r p ins = recVisitPath r q ins := by
  rw [recVisitPath, recVisitPath, hp, hq, h]

/--
C9 (counterexample to the claim as stated): the path a/ carries a trailing
slash, yet resolution accepts it and resolves the node a, because split_path
turns a trailing slash into an empty remainder rather than an empty segment.
-/
theorem C9_counterexample :
    recVisitPath recDefault ("a/".toList) false = (true, recDefault) := rfl

/--
C9 (amended): a path with a leading slash never resolves on the Record root
(its first segment is empty and matches nothing) and does not modify the
tree; a single trailing slash after a final slash-free non-empty segment is
tolerated and resolves exactly like the path without it.
-/
theorem C9_path_slashes :
    (∀ (rest : List Char) (r : Rec) (ins : Bool),
      recVisitPath r ('/' :: rest) ins = (false, r)) ∧
    (∀ (seg : List Char) (r : Rec) (ins : Bool), seg ≠ [] → '/' ∉ seg →
      recVisitPath r (seg ++ ['/']) ins = recVisitPath r seg ins) := by
  constructor
  · intro rest r ins
    rfl
  · intro seg r ins h1 h2
    apply recVisitPath_eq_of_splitPath
    · cases seg with
      | nil => exact absurd rfl h1
      | cons c t => rfl
    · cases seg with
      | nil => exact absurd rfl h1
      | cons c t => rfl
    · rw [splitPath_append_slash seg h2, splitPath_no_slash seg h2]

/-- Witness for C9 (amended) on the concrete segments of the claim. -/
theorem C9_path_slashes_witness :
    recVisitPath recDefault ("/a".toList) false = (false, recDefault) ∧
    recVisitPath recDefault ("a/".toList) false =
      recVisitPath recDefault ("a".toList) false := by
  constructor
  · exact C9_path_slashes.1 ("a".toList) recDefault false
  · exact C9_path_slashes.2 ("a".toList) recDefault false (by decide) (by decide)

end JStore
